import Mathlib

/-!
# CActor (Actor.cpp) — the actor of the CanadianExperience scene graph

A shallow embedding of `CActor` from `Actor.cpp`.

* Objects the actor only points to (drawables, pictures, timelines, the
  graphics context) are represented by their identity (address).  A
  `DrawableRef` is a non-null `shared_ptr<CDrawable>`; a possibly-null pointer
  is an `Option`.
* Every `void` call the actor makes on a collaborator is recorded, in program
  order, as a `Call`; a method returns the new actor state together with the
  calls it issued.
* Calls that return a value to the actor (`CDrawable::HitTest`,
  `CPicture::GetTimeline`, `CAnimChannelPoint::IsValid` / `GetPoint`) are
  classes declared outside `Actor.cpp`; their answers are parameters.
-/

namespace CanadianExperience

/-- Gdiplus `Point`: a pair of integer picture coordinates. -/
structure Point where
  X : Int
  Y : Int
deriving DecidableEq, Repr

/-- Identity of a `CDrawable` object (a non-null `shared_ptr<CDrawable>`). -/
abbrev DrawableRef := Nat

/-- Identity of a `CActor` object (the value of `this`). -/
abbrev ActorRef := Nat

/-- Identity of a `CPicture` object (a non-null `CPicture *`). -/
abbrev PictureRef := Nat

/-- Identity of a `CTimeline` object (what `CPicture::GetTimeline` returns). -/
abbrev TimelineRef := Nat

/-- Identity of the `Graphics` context handed to `Draw`. -/
abbrev GraphicsRef := Nat

/-- Address of an animation channel: `&mPositionChannel` of the given actor. -/
inductive ChannelRef where
  | mPositionChannel (actor : ActorRef)
deriving DecidableEq, Repr

/-- The `void` calls `CActor` issues on its collaborators.
The rotation argument of `Place` is a `double` in the source; the actor only
ever passes the literal `0`, so an integer carries it. -/
inductive Call where
  /-- Records `drawable->Place(offset, rotate)`. -/
  | Place (drawable : DrawableRef) (offset : Point) (rotate : Int)
  /-- Records `drawable->Draw(graphics)`. -/
  | Draw (drawable : DrawableRef) (graphics : GraphicsRef)
  /-- Records `drawable->SetActor(actor)`. -/
  | SetActor (drawable : DrawableRef) (actor : ActorRef)
  /-- Records `timeline->AddChannel(channel)`. -/
  | AddChannel (timeline : TimelineRef) (channel : ChannelRef)
  /-- Records `drawable->SetTimeline(timeline)`. -/
  | SetTimeline (drawable : DrawableRef) (timeline : TimelineRef)
  /-- Records `channel.SetKeyframe(pos)` on a point channel. -/
  | ChannelSetKeyframe (channel : ChannelRef) (pos : Point)
  /-- Records `drawable->SetKeyframe()`. -/
  | SetKeyframe (drawable : DrawableRef)
  /-- Records `drawable->GetKeyframe()`. -/
  | GetKeyframe (drawable : DrawableRef)
deriving DecidableEq, Repr

/-- The data members of `CActor` that `Actor.cpp` reads or writes.  The member
`mPositionChannel` is an object of class `CAnimChannelPoint`; its state lives
behind that class and is reached only through calls. -/
structure CActor where
  mName : String
  mEnabled : Bool
  mPosition : Point
  mClickable : Bool
  mRoot : Option DrawableRef
  mDrawablesInOrder : List DrawableRef
  mPicture : Option PictureRef
deriving DecidableEq, Repr

/-- Initial values of the members the constructor does not mention; they come
from the default member initializers of `Actor.h`. -/
structure MemberInit where
  mEnabled : Bool
  mPosition : Point
  mClickable : Bool
  mPicture : Option PictureRef
deriving DecidableEq, Repr

/-- What the member `mPositionChannel` answers to the two queries of
`CActor::GetKeyframe` at the time of the call. -/
structure CAnimChannelPoint where
  IsValid : Bool
  GetPoint : Point
deriving DecidableEq, Repr

/-- `CActor::CActor(const wstring &name) : mName(name)`.  The `shared_ptr` root
is default-constructed null and the vector empty. -/
def CActor.ctor (init : MemberInit) (name : String) : CActor :=
  { mName := name
    mEnabled := init.mEnabled
    mPosition := init.mPosition
    mClickable := init.mClickable
    mRoot := none
    mDrawablesInOrder := []
    mPicture := init.mPicture }

/-- A range-for loop over the flat list whose body issues one call per element:
`for (auto drawable : mDrawablesInOrder) { body(drawable); }`. -/
def forEachDrawable (body : DrawableRef → Call) : List DrawableRef → List Call
  | [] => []
  | drawable :: rest => body drawable :: forEachDrawable body rest

/-- `CActor::SetRoot`. -/
def CActor.SetRoot (a : CActor) (root : Option DrawableRef) : CActor × List Call :=
  ({ a with mRoot := root }, [])

/-- `CActor::Draw`. -/
def CActor.Draw (a : CActor) (graphics : GraphicsRef) : CActor × List Call :=
  if !a.mEnabled then
    (a, [])
  else
    let placed : List Call :=
      match a.mRoot with
      | some root => [Call.Place root a.mPosition 0]
      | none => []
    (a, placed ++ forEachDrawable (fun drawable => Call.Draw drawable graphics) a.mDrawablesInOrder)

/-- The reverse-iterator loop of `CActor::HitTest`, given the entries in the
order `rbegin() .. rend()` visits them. -/
def CActor.HitTestLoop (hit : DrawableRef → Point → Bool) (pos : Point) :
    List DrawableRef → Option DrawableRef
  | [] => none
  | drawable :: rest =>
    if hit drawable pos then some drawable else CActor.HitTestLoop hit pos rest

/-- `CActor::HitTest`; `hit d pos` is the answer of `d->HitTest(pos)`. -/
def CActor.HitTest (hit : DrawableRef → Point → Bool) (a : CActor) (pos : Point) :
    Option DrawableRef :=
  if !a.mClickable || !a.mEnabled then
    none
  else
    CActor.HitTestLoop hit pos a.mDrawablesInOrder.reverse

/-- `CActor::AddDrawable`; `self` is `this`. -/
def CActor.AddDrawable (a : CActor) (self : ActorRef) (drawable : DrawableRef) :
    CActor × List Call :=
  ({ a with mDrawablesInOrder := a.mDrawablesInOrder ++ [drawable] },
    [Call.SetActor drawable self])

/-- `CActor::SetPicture`; `GetTimeline p` is the answer of `p->GetTimeline()`. -/
def CActor.SetPicture (GetTimeline : PictureRef → TimelineRef) (a : CActor) (self : ActorRef)
    (picture : PictureRef) : CActor × List Call :=
  ({ a with mPicture := some picture },
    Call.AddChannel (GetTimeline picture) (ChannelRef.mPositionChannel self) ::
      forEachDrawable (fun drawable => Call.SetTimeline drawable (GetTimeline picture))
        a.mDrawablesInOrder)

/-- `CActor::SetKeyframe`. -/
def CActor.SetKeyframe (a : CActor) (self : ActorRef) : CActor × List Call :=
  (a, Call.ChannelSetKeyframe (ChannelRef.mPositionChannel self) a.mPosition ::
    forEachDrawable (fun drawable => Call.SetKeyframe drawable) a.mDrawablesInOrder)

/-- `CActor::GetKeyframe`. -/
def CActor.GetKeyframe (mPositionChannel : CAnimChannelPoint) (a : CActor) :
    CActor × List Call :=
  let a1 : CActor :=
    if mPositionChannel.IsValid then { a with mPosition := mPositionChannel.GetPoint } else a
  (a1, forEachDrawable (fun drawable => Call.GetKeyframe drawable) a1.mDrawablesInOrder)

/-- The two builder calls that shape an actor's scene graph. -/
inductive BuildOp where
  | SetRoot (root : Option DrawableRef)
  | AddDrawable (drawable : DrawableRef)
deriving DecidableEq, Repr

/-- One builder call on the actor `self`. -/
def CActor.applyOp (self : ActorRef) (a : CActor) : BuildOp → CActor
  | BuildOp.SetRoot root => (a.SetRoot root).1
  | BuildOp.AddDrawable drawable => (a.AddDrawable self drawable).1

/-- A sequence of builder calls, first call first. -/
def CActor.build (self : ActorRef) (a : CActor) : List BuildOp → CActor
  | [] => a
  | op :: rest => CActor.build self (CActor.applyOp self a op) rest

/-- The drawables handed to `AddDrawable` by a call sequence, in call order. -/
def addedDrawables : List BuildOp → List DrawableRef
  | [] => []
  | BuildOp.SetRoot _ :: rest => addedDrawables rest
  | BuildOp.AddDrawable drawable :: rest => drawable :: addedDrawables rest

/-- The root after a call sequence: the argument of the last `SetRoot`, or the
given root when there was none. -/
def lastRoot (root : Option DrawableRef) : List BuildOp → Option DrawableRef
  | [] => root
  | BuildOp.SetRoot r :: rest => lastRoot r rest
  | BuildOp.AddDrawable _ :: rest => lastRoot root rest

/-- Drawables of the tree hanging under `r`, the root included; `children d`
lists the children of `d` (the tree is kept by `CDrawable`, outside
`Actor.cpp`). -/
inductive Reachable (children : DrawableRef → List DrawableRef) (r : DrawableRef) :
    DrawableRef → Prop where
  | root : Reachable children r r
  | child {d c : DrawableRef} : Reachable children r d → c ∈ children d →
      Reachable children r c

/-- The flat-list invariant of the data model: every drawable reachable from
the root occurs exactly once in the flat list. -/
def FlatListInvariant (children : DrawableRef → List DrawableRef) (a : CActor) : Prop :=
  ∀ r, a.mRoot = some r → ∀ d, Reachable children r d → a.mDrawablesInOrder.count d = 1

/-! ## Concrete actors used to evaluate the model -/

/-- Drawables `10` then `20` added in that order, both covering the point;
drawable `30`, added last, does not cover it. -/
def overlapActor : CActor :=
  { mName := "Harold"
    mEnabled := true
    mPosition := ⟨0, 0⟩
    mClickable := true
    mRoot := some 10
    mDrawablesInOrder := [10, 20, 30]
    mPicture := none }

/-- Hit oracle: every drawable except `30` covers every point. -/
def overlapHit (d : DrawableRef) (_pos : Point) : Bool := d != 30

/-- A freshly constructed actor for the concrete checks: enabled, not
clickable, at the origin, in no picture. -/
def freshActor : CActor :=
  CActor.ctor { mEnabled := true, mPosition := ⟨0, 0⟩, mClickable := false, mPicture := none }
    "Harold"

/-- A picture-to-timeline map for the concrete checks. -/
def timelineOf (picture : PictureRef) : TimelineRef := picture + 100

/-- An actor whose builder handed drawable `10` to `AddDrawable` twice, with
drawable `20` in between: its flat list is `[10, 20, 10]`. -/
def repeatedActor : CActor :=
  CActor.build 1 freshActor
    [BuildOp.AddDrawable 10, BuildOp.AddDrawable 20, BuildOp.AddDrawable 10]

/-- An actor standing at `(3, 4)`. -/
def movedActor : CActor := { overlapActor with mPosition := ⟨3, 4⟩ }

/-! ## Shared lemmas -/

theorem forEachDrawable_eq_map (body : DrawableRef → Call) (l : List DrawableRef) :
    forEachDrawable body l = l.map body := by
  induction l with
  | nil => rfl
  | cons d rest ih => simp [forEachDrawable, ih]

theorem HitTestLoop_eq_none (hit : DrawableRef → Point → Bool) (pos : Point)
    (l : List DrawableRef) :
    CActor.HitTestLoop hit pos l = none ↔ ∀ d ∈ l, hit d pos = false := by
  induction l with
  | nil => simp [CActor.HitTestLoop]
  | cons d rest ih =>
    by_cases h : hit d pos = true
    · simp [CActor.HitTestLoop, h]
    · simp [CActor.HitTestLoop, h, ih]

theorem HitTestLoop_reverse_snoc (hit : DrawableRef → Point → Bool) (pos : Point)
    (l : List DrawableRef) (x : DrawableRef) :
    CActor.HitTestLoop hit pos (l ++ [x]).reverse =
      if hit x pos then some x else CActor.HitTestLoop hit pos l.reverse := by
  simp [CActor.HitTestLoop]

/-- The reverse loop returns `d` exactly when `d` sits at the greatest index
whose entry hit-tests true. -/
theorem HitTestLoop_reverse_eq_some (hit : DrawableRef → Point → Bool) (pos : Point)
    (l : List DrawableRef) (d : DrawableRef) :
    CActor.HitTestLoop hit pos l.reverse = some d ↔
      ∃ i : Nat, l[i]? = some d ∧ hit d pos = true ∧
        ∀ (j : Nat) (e : DrawableRef), i < j → l[j]? = some e → hit e pos = false := by
  induction l using List.reverseRecOn with
  | nil => simp [CActor.HitTestLoop]
  | append_singleton init x ih =>
    rw [HitTestLoop_reverse_snoc]
    by_cases hx : hit x pos = true
    · simp only [hx, if_true]
      constructor
      · intro h
        injection h with h
        subst h
        refine ⟨init.length, by simp, hx, ?_⟩
        intro j e hj he
        have : (init ++ [x])[j]? = none := by
          apply List.getElem?_eq_none
          simp; omega
        rw [this] at he
        cases he
      · rintro ⟨i, hi, hd, hmax⟩
        have hlt : i < (init ++ [x]).length := by
          by_contra hcon
          rw [List.getElem?_eq_none (by omega)] at hi
          cases hi
        simp at hlt
        by_cases hi2 : i = init.length
        · subst hi2
          simp at hi
          rw [hi]
        · have h1 := hmax init.length x (by omega) (by simp)
          rw [hx] at h1
          cases h1
    · simp only [hx, if_false, Bool.false_eq_true]
      rw [ih]
      have hxf : hit x pos = false := by simpa using hx
      constructor
      · rintro ⟨i, hi, hd, hmax⟩
        have hlt : i < init.length := by
          by_contra hcon
          rw [List.getElem?_eq_none (by omega)] at hi
          cases hi
        refine ⟨i, ?_, hd, ?_⟩
        · rw [List.getElem?_append_left hlt]; exact hi
        · intro j e hj he
          by_cases hj2 : j < init.length
          · rw [List.getElem?_append_left hj2] at he
            exact hmax j e hj he
          · by_cases hj3 : j = init.length
            · subst hj3
              simp at he
              rw [← he]; exact hxf
            · rw [List.getElem?_eq_none (by simp; omega)] at he
              cases he
      · rintro ⟨i, hi, hd, hmax⟩
        have hlt : i < (init ++ [x]).length := by
          by_contra hcon
          rw [List.getElem?_eq_none (by omega)] at hi
          cases hi
        simp at hlt
        have hne : i ≠ init.length := by
          intro hcon
          subst hcon
          simp at hi
          rw [hi] at hxf
          rw [hxf] at hd
          cases hd
        have hlt2 : i < init.length := by omega
        refine ⟨i, ?_, hd, ?_⟩
        · rw [List.getElem?_append_left hlt2] at hi; exact hi
        · intro j e hj he
          apply hmax j e hj
          have hjl : j < init.length := by
            by_contra hcon
            rw [List.getElem?_eq_none (by omega)] at he
            cases he
          rw [List.getElem?_append_left hjl]; exact he

/-! ## Hit testing -/

/-- C1: for an enabled, clickable actor, `HitTest` returns no-hit exactly when
no entry of the flat list hit-tests true at `P`; it returns `d` exactly when
`d` is the entry at the greatest index of the flat list whose hit-test
succeeds; and whatever it returns is a member of the flat list. -/
theorem HitTest_topmost (hit : DrawableRef → Point → Bool) (a : CActor) (P : Point)
    (hEnabled : a.mEnabled = true) (hClickable : a.mClickable = true) :
    (a.HitTest hit P = none ↔ ∀ d ∈ a.mDrawablesInOrder, hit d P = false) ∧
    (∀ d : DrawableRef, a.HitTest hit P = some d ↔
      ∃ i : Nat, a.mDrawablesInOrder[i]? = some d ∧ hit d P = true ∧
        ∀ (j : Nat) (e : DrawableRef), i < j → a.mDrawablesInOrder[j]? = some e →
          hit e P = false) ∧
    (∀ d : DrawableRef, a.HitTest hit P = some d → d ∈ a.mDrawablesInOrder) := by
  have hrun : a.HitTest hit P = CActor.HitTestLoop hit P a.mDrawablesInOrder.reverse := by
    simp [CActor.HitTest, hEnabled, hClickable]
  refine ⟨?_, ?_, ?_⟩
  · rw [hrun, HitTestLoop_eq_none]
    simp
  · intro d
    rw [hrun]
    exact HitTestLoop_reverse_eq_some hit P a.mDrawablesInOrder d
  · intro d hd
    rw [hrun, HitTestLoop_reverse_eq_some] at hd
    obtain ⟨i, hi, _, _⟩ := hd
    exact List.getElem?_mem hi

/-- C1 at a concrete actor: the later of the two covering drawables wins. -/
theorem HitTest_topmost_witness :
    overlapActor.mEnabled = true ∧ overlapActor.mClickable = true ∧
    overlapActor.HitTest overlapHit ⟨5, 5⟩ = some 20 ∧
    (20 : DrawableRef) ∈ overlapActor.mDrawablesInOrder :=
  ⟨rfl, rfl, by decide,
    (HitTest_topmost overlapHit overlapActor ⟨5, 5⟩ rfl rfl).2.2 20 (by decide)⟩

/-- C2: an actor that is not enabled or not clickable answers no-hit, whatever
the drawables answer; in particular a disabled actor does, whatever its
clickable flag. -/
theorem HitTest_disabled_or_unclickable (hit : DrawableRef → Point → Bool) (a : CActor)
    (P : Point) (h : a.mEnabled = false ∨ a.mClickable = false) :
    a.HitTest hit P = none := by
  rcases h with h | h <;> simp [CActor.HitTest, h]

/-- C2 at a concrete actor: disabled but clickable, with a drawable that covers
the point. -/
theorem HitTest_disabled_or_unclickable_witness :
    ({ overlapActor with mEnabled := false }).mClickable = true ∧
    overlapHit 20 ⟨5, 5⟩ = true ∧
    ({ overlapActor with mEnabled := false }).HitTest overlapHit ⟨5, 5⟩ = none :=
  ⟨rfl, by decide,
    HitTest_disabled_or_unclickable overlapHit { overlapActor with mEnabled := false } ⟨5, 5⟩
      (Or.inl rfl)⟩

/-! ## Drawing -/

/-- C3: an enabled actor with a root issues one `Place` on the root with the
actor's position and rotation 0, followed by one `Draw` per entry of the flat
list in list order, and nothing else; the actor itself is not modified. -/
theorem Draw_enabled_calls (a : CActor) (graphics : GraphicsRef) (root : DrawableRef)
    (hEnabled : a.mEnabled = true) (hRoot : a.mRoot = some root) :
    (a.Draw graphics).2 =
      Call.Place root a.mPosition 0 ::
        a.mDrawablesInOrder.map (fun d => Call.Draw d graphics) ∧
    (a.Draw graphics).1 = a := by
  simp [CActor.Draw, hEnabled, hRoot, forEachDrawable_eq_map]

/-- C3 at a concrete actor. -/
theorem Draw_enabled_calls_witness :
    (overlapActor.Draw 7).2 =
      [Call.Place 10 ⟨0, 0⟩ 0, Call.Draw 10 7, Call.Draw 20 7, Call.Draw 30 7] :=
  (Draw_enabled_calls overlapActor 7 10 rfl rfl).1

/-- C4: a disabled actor's `Draw` issues no call at all (no `Place`, no `Draw`)
and returns the actor unchanged. -/
theorem Draw_disabled (a : CActor) (graphics : GraphicsRef) (hDisabled : a.mEnabled = false) :
    (a.Draw graphics).2 = [] ∧ (a.Draw graphics).1 = a := by
  simp [CActor.Draw, hDisabled]

/-- C4 at a concrete actor with a root and three drawables. -/
theorem Draw_disabled_witness :
    ({ overlapActor with mEnabled := false }).mRoot = some 10 ∧
    (({ overlapActor with mEnabled := false }).Draw 7).2 = [] :=
  ⟨rfl, (Draw_disabled { overlapActor with mEnabled := false } 7 rfl).1⟩

/-! ## Building the scene graph -/

theorem build_mDrawablesInOrder (self : ActorRef) (ops : List BuildOp) (a : CActor) :
    (CActor.build self a ops).mDrawablesInOrder = a.mDrawablesInOrder ++ addedDrawables ops := by
  induction ops generalizing a with
  | nil => simp [CActor.build, addedDrawables]
  | cons op rest ih =>
    cases op with
    | SetRoot r => simp [CActor.build, CActor.applyOp, CActor.SetRoot, addedDrawables, ih]
    | AddDrawable d =>
      simp [CActor.build, CActor.applyOp, CActor.AddDrawable, addedDrawables, ih]

theorem build_mRoot (self : ActorRef) (ops : List BuildOp) (a : CActor) :
    (CActor.build self a ops).mRoot = lastRoot a.mRoot ops := by
  induction ops generalizing a with
  | nil => simp [CActor.build, lastRoot]
  | cons op rest ih =>
    cases op with
    | SetRoot r => simp [CActor.build, CActor.applyOp, CActor.SetRoot, lastRoot, ih]
    | AddDrawable d =>
      simp [CActor.build, CActor.applyOp, CActor.AddDrawable, lastRoot, ih]

theorem count_addedDrawables (ops : List BuildOp) (d : DrawableRef) :
    (addedDrawables ops).count d = ops.count (BuildOp.AddDrawable d) := by
  induction ops with
  | nil => simp [addedDrawables]
  | cons op rest ih =>
    cases op with
    | SetRoot r => simp [addedDrawables, ih, List.count_cons]
    | AddDrawable e =>
      by_cases hde : e = d
      · subst hde
        simp [addedDrawables, ih]
      · have hne : BuildOp.AddDrawable e ≠ BuildOp.AddDrawable d := by
          intro hcon
          injection hcon with hcon
          exact hde hcon
        simp [addedDrawables, ih, List.count_cons, hde, hne]

/-- C5 fails as stated: after `SetRoot(10)` alone the root is reachable from
itself but absent from the (empty) flat list; and after adding drawable `10`
twice it occurs twice. -/
theorem FlatListInvariant_not_maintained :
    ¬ FlatListInvariant (fun _ => []) (CActor.build 1 freshActor [BuildOp.SetRoot (some 10)]) ∧
    ¬ FlatListInvariant (fun _ => [])
        (CActor.build 1 freshActor
          [BuildOp.SetRoot (some 10), BuildOp.AddDrawable 10, BuildOp.AddDrawable 10]) := by
  constructor
  · intro h
    have h1 := h 10 rfl 10 Reachable.root
    revert h1
    decide
  · intro h
    have h1 := h 10 rfl 10 Reachable.root
    revert h1
    decide

/-- C5 as amended: after any sequence of `SetRoot` and `AddDrawable` calls on a
freshly constructed actor, the flat list is exactly the sequence of
`AddDrawable` arguments in call order, so a drawable occurs in it as many times
as it was added; the root is the argument of the last `SetRoot` (unset if there
was none) and `SetRoot` adds nothing to the list.  The flat-list invariant
therefore holds exactly when every drawable reachable from the root was passed
to `AddDrawable` exactly once. -/
theorem build_flat_list (children : DrawableRef → List DrawableRef) (self : ActorRef)
    (init : MemberInit) (name : String) (ops : List BuildOp) :
    (CActor.build self (CActor.ctor init name) ops).mDrawablesInOrder = addedDrawables ops ∧
    (CActor.build self (CActor.ctor init name) ops).mRoot = lastRoot none ops ∧
    (∀ d : DrawableRef,
      (CActor.build self (CActor.ctor init name) ops).mDrawablesInOrder.count d =
        ops.count (BuildOp.AddDrawable d)) ∧
    (FlatListInvariant children (CActor.build self (CActor.ctor init name) ops) ↔
      ∀ r, lastRoot none ops = some r → ∀ d, Reachable children r d →
        ops.count (BuildOp.AddDrawable d) = 1) := by
  have hl : (CActor.build self (CActor.ctor init name) ops).mDrawablesInOrder =
      addedDrawables ops := by
    rw [build_mDrawablesInOrder]
    simp [CActor.ctor]
  have hr : (CActor.build self (CActor.ctor init name) ops).mRoot = lastRoot none ops := by
    rw [build_mRoot]
    simp [CActor.ctor]
  refine ⟨hl, hr, ?_, ?_⟩
  · intro d
    rw [hl, count_addedDrawables]
  · unfold FlatListInvariant
    rw [hl, hr]
    simp only [count_addedDrawables]

/-- C5 as amended, at a builder that adds an arm, the body (the root) and a
second arm, the arms being children of the body: the invariant holds. -/
theorem build_flat_list_witness :
    (CActor.build 1 freshActor
      [BuildOp.AddDrawable 20, BuildOp.AddDrawable 10, BuildOp.SetRoot (some 10),
        BuildOp.AddDrawable 30]).mDrawablesInOrder = [20, 10, 30] ∧
    (CActor.build 1 freshActor
      [BuildOp.AddDrawable 20, BuildOp.AddDrawable 10, BuildOp.SetRoot (some 10),
        BuildOp.AddDrawable 30]).mRoot = some 10 :=
  ⟨(build_flat_list (fun d => if d = 10 then [20, 30] else []) 1 _ "Harold" _).1,
    (build_flat_list (fun d => if d = 10 then [20, 30] else []) 1 _ "Harold" _).2.1⟩

/-! ## Joining a picture -/

/-- C6 fails as stated: a second `SetPicture` on an actor that already has
picture `1` is carried out like the first: the picture is rebound to `2`, the
position channel is added to the new timeline and every drawable gets
`SetTimeline` again. -/
theorem SetPicture_second_call_rebinds :
    (overlapActor.SetPicture timelineOf 1 1).1.mPicture = some 1 ∧
    ((overlapActor.SetPicture timelineOf 1 1).1.SetPicture timelineOf 1 2).1.mPicture = some 2 ∧
    ((overlapActor.SetPicture timelineOf 1 1).1.SetPicture timelineOf 1 2).2 =
      [Call.AddChannel 102 (ChannelRef.mPositionChannel 1), Call.SetTimeline 10 102,
        Call.SetTimeline 20 102, Call.SetTimeline 30 102] := by
  decide

/-- C6 as amended: `SetPicture` has no guard against a second call.  Called
again with picture `q` on an actor that already joined picture `p`, it stores
`q` as the picture, adds the position channel to the timeline of `q` and
forwards `SetTimeline` with that timeline to every entry of the flat list, in
order; the other members keep the values they had. -/
theorem SetPicture_twice (GetTimeline : PictureRef → TimelineRef) (a : CActor)
    (self : ActorRef) (p q : PictureRef) :
    ((a.SetPicture GetTimeline self p).1.SetPicture GetTimeline self q).1 =
      { a with mPicture := some q } ∧
    ((a.SetPicture GetTimeline self p).1.SetPicture GetTimeline self q).2 =
      Call.AddChannel (GetTimeline q) (ChannelRef.mPositionChannel self) ::
        a.mDrawablesInOrder.map (fun d => Call.SetTimeline d (GetTimeline q)) := by
  simp [CActor.SetPicture, forEachDrawable_eq_map]

/-! ## Adding drawables -/

theorem addedDrawables_map_AddDrawable (ds : List DrawableRef) :
    addedDrawables (ds.map BuildOp.AddDrawable) = ds := by
  induction ds with
  | nil => rfl
  | cons d rest ih => simp [addedDrawables, ih]

/-- C7: `AddDrawable(d)` turns the flat list `L` into `L ++ [d]` (so every
existing entry keeps its index, `d` lands at index `|L|`, and adding
`d1..dn` to a fresh actor yields exactly `[d1,..,dn]`), issues the single call
`d->SetActor(this)`, and changes no other member of the actor. -/
theorem AddDrawable_appends (a : CActor) (self : ActorRef) (d : DrawableRef) :
    (a.AddDrawable self d).1.mDrawablesInOrder = a.mDrawablesInOrder ++ [d] ∧
    (∀ i : Nat, i < a.mDrawablesInOrder.length →
      (a.AddDrawable self d).1.mDrawablesInOrder[i]? = a.mDrawablesInOrder[i]?) ∧
    (a.AddDrawable self d).1.mDrawablesInOrder[a.mDrawablesInOrder.length]? = some d ∧
    (a.AddDrawable self d).2 = [Call.SetActor d self] ∧
    (a.AddDrawable self d).1 =
      { a with mDrawablesInOrder := (a.AddDrawable self d).1.mDrawablesInOrder } ∧
    (∀ (init : MemberInit) (name : String) (ds : List DrawableRef),
      (CActor.build self (CActor.ctor init name)
        (ds.map BuildOp.AddDrawable)).mDrawablesInOrder = ds) := by
  refine ⟨rfl, ?_, ?_, rfl, rfl, ?_⟩
  · intro i hi
    simp [CActor.AddDrawable, List.getElem?_append_left hi]
  · simp [CActor.AddDrawable]
  · intro init name ds
    rw [build_mDrawablesInOrder, addedDrawables_map_AddDrawable]
    simp [CActor.ctor]

/-- C7 at a concrete actor: a fourth drawable goes to the end, the first entry
stays first, and three drawables added to a fresh actor come out in call
order. -/
theorem AddDrawable_appends_witness :
    (overlapActor.AddDrawable 1 40).1.mDrawablesInOrder = [10, 20, 30, 40] ∧
    (overlapActor.AddDrawable 1 40).1.mDrawablesInOrder[0]? = some 10 ∧
    (overlapActor.AddDrawable 1 40).2 = [Call.SetActor 40 1] ∧
    (CActor.build 1 freshActor
      ([20, 10, 30].map BuildOp.AddDrawable)).mDrawablesInOrder = [20, 10, 30] :=
  ⟨(AddDrawable_appends overlapActor 1 40).1,
    (AddDrawable_appends overlapActor 1 40).2.1 0 (by decide),
    (AddDrawable_appends overlapActor 1 40).2.2.2.1,
    (AddDrawable_appends overlapActor 1 40).2.2.2.2.2 _ "Harold" [20, 10, 30]⟩

/-- C8 fails as stated: on the flat list `[10, 20, 10]` drawable `10` is in the
list and receives `SetTimeline` twice, not exactly once, so "exactly once on
every drawable of the flat list" does not hold. -/
theorem SetPicture_repeated_drawable_called_twice :
    repeatedActor.mDrawablesInOrder = [10, 20, 10] ∧
    (repeatedActor.SetPicture timelineOf 1 5).2 =
      [Call.AddChannel 105 (ChannelRef.mPositionChannel 1), Call.SetTimeline 10 105,
        Call.SetTimeline 20 105, Call.SetTimeline 10 105] ∧
    (repeatedActor.SetPicture timelineOf 1 5).2.count (Call.SetTimeline 10 105) = 2 ∧
    ¬ (∀ d ∈ repeatedActor.mDrawablesInOrder,
        (repeatedActor.SetPicture timelineOf 1 5).2.count
          (Call.SetTimeline d (timelineOf 5)) = 1) := by
  refine ⟨by decide, by decide, by decide, ?_⟩
  intro h
  have h10 := h 10 (by decide)
  revert h10
  decide

/-- C8 as amended: `SetPicture(picture)` stores the picture, then adds the
actor's position channel to the picture's timeline, then calls `SetTimeline`
with that same timeline once per entry of the flat list, in list order.  A
drawable therefore receives as many calls as it has entries in the list:
exactly one when the list holds no drawable twice.  No other member changes. -/
theorem SetPicture_calls (GetTimeline : PictureRef → TimelineRef) (a : CActor)
    (self : ActorRef) (picture : PictureRef) :
    (a.SetPicture GetTimeline self picture).1.mPicture = some picture ∧
    (a.SetPicture GetTimeline self picture).2 =
      Call.AddChannel (GetTimeline picture) (ChannelRef.mPositionChannel self) ::
        a.mDrawablesInOrder.map (fun d => Call.SetTimeline d (GetTimeline picture)) ∧
    (∀ d : DrawableRef,
      (a.SetPicture GetTimeline self picture).2.count
          (Call.SetTimeline d (GetTimeline picture)) = a.mDrawablesInOrder.count d) ∧
    (a.mDrawablesInOrder.Nodup → ∀ d ∈ a.mDrawablesInOrder,
      (a.SetPicture GetTimeline self picture).2.count
          (Call.SetTimeline d (GetTimeline picture)) = 1) ∧
    (a.SetPicture GetTimeline self picture).1 = { a with mPicture := some picture } := by
  have hcalls : (a.SetPicture GetTimeline self picture).2 =
      Call.AddChannel (GetTimeline picture) (ChannelRef.mPositionChannel self) ::
        a.mDrawablesInOrder.map (fun d => Call.SetTimeline d (GetTimeline picture)) := by
    simp [CActor.SetPicture, forEachDrawable_eq_map]
  have hcount : ∀ d : DrawableRef,
      (a.SetPicture GetTimeline self picture).2.count
          (Call.SetTimeline d (GetTimeline picture)) = a.mDrawablesInOrder.count d := by
    intro d
    rw [hcalls, List.count_cons]
    have hinj : Function.Injective
        (fun d : DrawableRef => Call.SetTimeline d (GetTimeline picture)) := by
      intro x y hxy
      injection hxy
    have hmap := List.count_map_of_injective a.mDrawablesInOrder
      (fun d : DrawableRef => Call.SetTimeline d (GetTimeline picture)) hinj d
    simp only at hmap
    rw [hmap]
    simp
  refine ⟨rfl, hcalls, hcount, ?_, rfl⟩
  intro hnodup d hd
  rw [hcount d]
  exact List.count_eq_one_of_mem hnodup hd

/-- C8 as amended, at the actor with flat list `[10, 20, 30]`: one
`AddChannel`, then one `SetTimeline` per entry, and drawable `20` is called
exactly once. -/
theorem SetPicture_calls_witness :
    overlapActor.mDrawablesInOrder.Nodup ∧
    (overlapActor.SetPicture timelineOf 1 5).2 =
      [Call.AddChannel 105 (ChannelRef.mPositionChannel 1), Call.SetTimeline 10 105,
        Call.SetTimeline 20 105, Call.SetTimeline 30 105] ∧
    (overlapActor.SetPicture timelineOf 1 5).2.count
      (Call.SetTimeline 20 (timelineOf 5)) = 1 :=
  ⟨by decide, (SetPicture_calls timelineOf overlapActor 1 5).2.1,
    (SetPicture_calls timelineOf overlapActor 1 5).2.2.2.1 (by decide) 20 (by decide)⟩

/-! ## Keyframes -/

/-- C9: `GetKeyframe` overwrites the position with the channel's point when the
position channel is valid and leaves it as it was when the channel is not
valid; either way it then forwards `GetKeyframe` once per entry of the flat
list, in list order, and no other member changes. -/
theorem GetKeyframe_position (channel : CAnimChannelPoint) (a : CActor) :
    (channel.IsValid = true → (a.GetKeyframe channel).1.mPosition = channel.GetPoint) ∧
    (channel.IsValid = false → (a.GetKeyframe channel).1.mPosition = a.mPosition) ∧
    (a.GetKeyframe channel).2 = a.mDrawablesInOrder.map (fun d => Call.GetKeyframe d) ∧
    (a.GetKeyframe channel).1 = { a with mPosition := (a.GetKeyframe channel).1.mPosition } := by
  cases hv : channel.IsValid <;> simp [CActor.GetKeyframe, hv, forEachDrawable_eq_map]

/-- C9 at a concrete actor: a valid channel sampling `(30, 0)` moves the actor
there; a channel without keyframes leaves it at `(3, 4)`. -/
theorem GetKeyframe_position_witness :
    (movedActor.GetKeyframe ⟨true, ⟨30, 0⟩⟩).1.mPosition = ⟨30, 0⟩ ∧
    (movedActor.GetKeyframe ⟨false, ⟨30, 0⟩⟩).1.mPosition = ⟨3, 4⟩ ∧
    (movedActor.GetKeyframe ⟨false, ⟨30, 0⟩⟩).2 =
      [Call.GetKeyframe 10, Call.GetKeyframe 20, Call.GetKeyframe 30] :=
  ⟨(GetKeyframe_position ⟨true, ⟨30, 0⟩⟩ movedActor).1 rfl,
    (GetKeyframe_position ⟨false, ⟨30, 0⟩⟩ movedActor).2.1 rfl,
    (GetKeyframe_position ⟨false, ⟨30, 0⟩⟩ movedActor).2.2.1⟩

/-- C10: `SetKeyframe` first hands the actor's current position to
`SetKeyframe` of its own position channel, then forwards `SetKeyframe` once per
entry of the flat list, in list order; the actor (position, flags, root, flat
list, picture) is returned unchanged. -/
theorem SetKeyframe_calls (a : CActor) (self : ActorRef) :
    (a.SetKeyframe self).2 =
      Call.ChannelSetKeyframe (ChannelRef.mPositionChannel self) a.mPosition ::
        a.mDrawablesInOrder.map (fun d => Call.SetKeyframe d) ∧
    (a.SetKeyframe self).1 = a := by
  simp [CActor.SetKeyframe, forEachDrawable_eq_map]

end CanadianExperience
